import Mathlib

/-!
Verification of the K-CLI conversation engine against its specification.

This file gives a shallow embedding, in Lean 4, of the core of the
`client` Go package of the K-CLI repository:

* the file-backed chat store (`chat_reop.go`: `addChatInternal`,
  `updateChatInternal`, `deleteChatInternal`, `getChatInternal`,
  `listChatsInternal`, `filterChatsByKeyword`),
* the chat record operations (`chat.go`: `UpdateMessages`, `CreateChat`),
* the streaming response decoder (`provider.go`:
  `ProcessStreamableResponse`),
* the tool-use parsing pipeline (`manager.go`: `containsToolUse`,
  `splitContent`; the MCP manager's `ExtractMCPToolUse`),
* the bounded turn loop (`manager.go`: `processUserMessage`,
  `HandleUserTextInput`).

Modelling conventions:

* Go strings are embedded as `List Char` (named `GoStr`).  Character
  case-folding (`strings.ToLower`) is modelled with `Char.toLower`,
  which agrees with Go on ASCII; no claim exercises non-ASCII folding.
* A Go `map[string]*Chat` is embedded as an association list with
  unique keys; `insertC`/`eraseC`/`lookupC` mirror map assignment,
  `delete`, and indexing.  Map iteration order is unobservable in the
  claims because every observation goes through `lookupC` or through
  an explicit sort by creation time.
* `time.Time` values are embedded as `Nat`; `a.After(b)` is `b < a`.
* Fallible persistence (`persistCache`) is driven by an explicit
  `persistOk : Bool` environment parameter: `true` means the full file
  rewrite succeeds, `false` means it returns an error.
* External library calls with no logic of their own in this repository
  (`sonic.UnmarshalString` for JSON) are abstracted as function
  parameters (`parse`, `parseJSON`); the surrounding control flow is
  translated from the source.
-/

-- ===========================================================================
-- Definitions
-- ===========================================================================

abbrev GoStr := List Char

/-- Convert a Lean string literal to the `GoStr` embedding of Go strings. -/
def gs (s : String) : GoStr := s.toList

/-- Whitespace test used by `strings.TrimSpace` (ASCII subset). -/
def isWS (c : Char) : Bool := c = ' ' || c = '\t' || c = '\n' || c = '\r'

/-- Model of `strings.TrimSpace`: drop whitespace from both ends. -/
def trimStr (s : GoStr) : GoStr :=
  ((s.dropWhile isWS).reverse.dropWhile isWS).reverse

/-- Model of `strings.Index`: index of the first occurrence of `pat` in `s`,
`none` when absent (Go returns -1). -/
def idxOf (s pat : GoStr) : Option Nat :=
  if pat.isPrefixOf s then some 0
  else
    match s with
    | [] => none
    | _ :: t => (idxOf t pat).map (· + 1)

/-- Model of `strings.Contains`. -/
def containsSub (s pat : GoStr) : Bool := (idxOf s pat).isSome

/-- Model of `strings.ToLower` (ASCII case folding). -/
def lowerStr (s : GoStr) : GoStr := s.map Char.toLower

-- ---------------------------------------------------------------------------
-- Data model (`manager.go` Message, `chat.go` Chat)
-- ---------------------------------------------------------------------------

/-- A JSON value, the target of the abstracted `sonic.UnmarshalString` for
tool arguments (`map[string]any` values). -/
inductive JVal where
  | num (n : Int)
  | str (s : GoStr)
  | bool (b : Bool)
  | null
deriving DecidableEq

/-- A JSON object: the `map[string]any` of tool arguments. -/
abbrev JObj := List (GoStr × JVal)

/-- The dynamic content field of a `Message` (`Content any`): either a plain
string, a list of structured parts (each part is a `map[string]any`; we keep
its optional string-typed `"text"` entry, which is all
`filterChatsByKeyword` inspects), or some other dynamic type. -/
inductive GoContent where
  | str (s : GoStr)
  | parts (ps : List (Option GoStr))
  | other
deriving DecidableEq

/-- Model of `cast.ToString` applied to `Message.Content`: a string converts
to itself, any non-string dynamic value converts to the empty string. -/
def goToString : GoContent → GoStr
  | .str s => s
  | .parts _ => []
  | .other => []

/-- The `Message` struct of `manager.go` (fields not inspected by any claim,
such as links and images, are omitted; absent string fields are `[]`,
mirroring Go zero values). -/
structure Message where
  role : GoStr
  content : GoContent
  reasoningContent : GoStr := []
  model : GoStr := []
  provider : GoStr := []
  id : GoStr := []
  server : GoStr := []
  tool : GoStr := []
  args : JObj := []
  timestamp : Nat := 0
deriving DecidableEq

/-- The `Chat` struct of `chat.go`. -/
structure Chat where
  id : GoStr
  createTime : Nat
  updateTime : Nat
  messages : List Message
deriving DecidableEq

/-- Model of `(*Chat).UpdateMessages`: replace the messages with the given list with
system-role messages filtered out, and refresh the update time (the `now`
parameter stands for `GetISO8601Timestamp()`). -/
def updateMessages (c : Chat) (messages : List Message) (now : Nat) : Chat :=
  { c with
    messages := messages.filter (fun m => ¬ m.role = gs "system")
    updateTime := now }

/-- The record built by `(*ChatSvr).CreateChat` and handed to the repository:
`Chat{ID, CreateTime: ts1, UpdateTime: ts2, Messages: messages}`.  The two
timestamps come from two separate `createTimeStamp()` calls.  Note the
messages are stored exactly as given. -/
def createdChat (chatID : GoStr) (ts1 ts2 : Nat) (messages : List Message) : Chat :=
  { id := chatID, createTime := ts1, updateTime := ts2, messages := messages }

-- ---------------------------------------------------------------------------
-- Chat store (`chat_reop.go`)
-- ---------------------------------------------------------------------------

/-- The in-memory cache `map[string]*Chat`, as an association list. -/
abbrev Cache := List (GoStr × Chat)

/-- Map indexing `cache[id]`. -/
def lookupC : Cache → GoStr → Option Chat
  | [], _ => none
  | (k, c) :: t, q => if k = q then some c else lookupC t q

/-- Map deletion `delete(cache, id)`. -/
def eraseC (k : GoStr) (cache : Cache) : Cache :=
  cache.filter (fun p => ¬ p.1 = k)

/-- Map assignment `cache[id] = chat` (replaces any existing binding). -/
def insertC (k : GoStr) (c : Chat) (cache : Cache) : Cache :=
  eraseC k cache ++ [(k, c)]

/-- Descending insertion by creation time, head of the list = newest. -/
def insertByCreate (c : Chat) : List Chat → List Chat
  | [] => [c]
  | d :: t => if d.createTime < c.createTime then c :: d :: t else d :: insertByCreate c t

/-- The sort `sort.Slice(chats, CreateTime.After)` used by `persistCache` and
`listChatsInternal`: descending by creation time.  Go's sort is unstable, so
the order among equal timestamps is unspecified there; this deterministic
model is one admissible refinement, and both the persisted file and the list
results are modelled with this same function. -/
def sortByCreateDesc (l : List Chat) : List Chat := l.foldr insertByCreate []

/-- Cache values, in association-list order (feeds the sort). -/
def cacheVals (cache : Cache) : List Chat := cache.map (·.2)

/-- The observable state owned by `FileRepo`: the in-memory cache and the
contents of the backing file (a list of records, in written order). -/
structure StoreState where
  cache : Cache
  file : List Chat
deriving DecidableEq

/-- Model of `persistCache`: full rewrite of the backing file with the cache sorted by
creation time descending.  On failure the cache is untouched; the claims
never observe the file contents after a failed write, so the model leaves
the file unchanged in that case (the real file may be truncated). -/
def persistedFile (cache : Cache) : List Chat := sortByCreateDesc (cacheVals cache)

/-- Model of `addChatInternal`: insert into the cache, persist, and on persistence
failure roll back by `delete(fr.cache, chat.ID)`.  Returns the Go pair
`(*Chat, error)`. -/
def addChatInternal (persistOk : Bool) (s : StoreState) (chat : Chat) :
    StoreState × Option Chat × Option GoStr :=
  let cache1 := insertC chat.id chat s.cache
  if persistOk then
    ({ cache := cache1, file := persistedFile cache1 }, some chat, none)
  else
    ({ s with cache := eraseC chat.id cache1 }, none, some (gs "failed to persist cache"))

/-- Model of `updateChatInternal`: require the id to exist, replace the cached record,
persist, and on persistence failure restore the old record. -/
def updateChatInternal (persistOk : Bool) (s : StoreState) (chat : Chat) :
    StoreState × Option Chat × Option GoStr :=
  match lookupC s.cache chat.id with
  | none => (s, none, some (gs "chat not found"))
  | some oldChat =>
    let cache1 := insertC chat.id chat s.cache
    if persistOk then
      ({ cache := cache1, file := persistedFile cache1 }, some chat, none)
    else
      ({ s with cache := insertC chat.id oldChat cache1 }, none,
        some (gs "failed to persist cache"))

/-- Model of `deleteChatInternal`: a missing id is a no-op success `(false, nil)`;
otherwise remove, persist, and on persistence failure restore the old
record.  Returns the Go pair `(bool, error)`. -/
def deleteChatInternal (persistOk : Bool) (s : StoreState) (chatID : GoStr) :
    StoreState × Bool × Option GoStr :=
  match lookupC s.cache chatID with
  | none => (s, false, none)
  | some oldChat =>
    let cache1 := eraseC chatID s.cache
    if persistOk then
      ({ cache := cache1, file := persistedFile cache1 }, true, none)
    else
      ({ s with cache := insertC chatID oldChat cache1 }, false,
        some (gs "failed to persist cache"))

/-- Model of `getChatInternal`: cache lookup; absence is `(nil, nil)`, never an
error. -/
def getChatInternal (cache : Cache) (chatID : GoStr) : Option Chat × Option GoStr :=
  (lookupC cache chatID, none)

/-- The typed payload carried in `OpResp.Data` (an `any` in Go).  `chatD`
carries the `*Chat` returned by `getChatInternal`; a `nil` `*Chat` is still a
typed value, so the `result.Data.(*Chat)` assertion in `Chat` succeeds on
it. -/
inductive OpData where
  | chatD (c : Option Chat)
  | chatsD (cs : List Chat)
  | deletedD (b : Bool)
deriving DecidableEq

/-- An `OpResp`. -/
structure OpRespM where
  data : Option OpData
  err : Option GoStr
deriving DecidableEq

/-- The response a drained worker produces for a `GetChat` request
(`processOperation`, case `opGetChat`). -/
def getChatResp (cache : Cache) (chatID : GoStr) : OpRespM :=
  let r := getChatInternal cache chatID
  { data := some (OpData.chatD r.1), err := r.2 }

/-- The synchronous wrapper `(*FileRepo).Chat` applied to the worker's
response: propagate the error, then assert `result.Data.(*Chat)`. -/
def chatSync (cache : Cache) (chatID : GoStr) : Option Chat × Option GoStr :=
  let resp := getChatResp cache chatID
  match resp.err with
  | some e => (none, some e)
  | none =>
    match resp.data with
    | some (OpData.chatD c) => (c, none)
    | _ => (none, some (gs "invalid operation data"))

-- ---------------------------------------------------------------------------
-- C1: rollback on failed persistence
-- ---------------------------------------------------------------------------

/-- A small concrete record used in counterexamples. -/
def chatA : Chat := { id := gs "c1", createTime := 0, updateTime := 0, messages := [] }

/-- A second record with the same id but different content. -/
def chatB : Chat := { id := gs "c1", createTime := 0, updateTime := 1, messages := [] }

-- ---------------------------------------------------------------------------
-- C2: system-message filtering on writes
-- ---------------------------------------------------------------------------

/-- A concrete system-role message. -/
def sysMsg : Message := { role := gs "system", content := GoContent.str (gs "sys") }

-- ---------------------------------------------------------------------------
-- C7: list with filters (`listChatsInternal`, `filterChatsByKeyword`)
-- ---------------------------------------------------------------------------

/-- Keyword test of `filterChatsByKeyword` on one message content: a plain
string is searched case-insensitively; a part list matches if some part has a
string `"text"` entry containing the keyword case-insensitively; any other
dynamic content never matches. -/
def contentKeywordHit (keyword : GoStr) (content : GoContent) : Bool :=
  match content with
  | .str s => containsSub (lowerStr s) (lowerStr keyword)
  | .parts ps =>
    ps.any (fun p =>
      match p with
      | some text => containsSub (lowerStr text) (lowerStr keyword)
      | none => false)
  | .other => false

/-- One message against all specified filters: the `continue`-chain inside
the message loop of `filterChatsByKeyword`.  A specified model (provider)
filter requires a non-empty `Model` (`Provider`) field containing the filter
as a case-insensitive substring. -/
def msgHit (keyword model provider : Option GoStr) (m : Message) : Bool :=
  (match keyword with
   | some k => contentKeywordHit k m.content
   | none => true) &&
  (match model with
   | some md => !m.model.isEmpty && containsSub (lowerStr m.model) (lowerStr md)
   | none => true) &&
  (match provider with
   | some pv => !m.provider.isEmpty && containsSub (lowerStr m.provider) (lowerStr pv)
   | none => true)

/-- One chat against the filters: the message loop breaks at the first
message matching every specified filter. -/
def chatHit (keyword model provider : Option GoStr) (c : Chat) : Bool :=
  c.messages.any (msgHit keyword model provider)

/-- The chat loop of `filterChatsByKeyword`: append each matching chat and
break once `len(filteredChats) >= limit` holds after an append. -/
def filterChatsLoop (p : Chat → Bool) (limit : Nat) (acc : List Chat) :
    List Chat → List Chat
  | [] => acc
  | c :: t =>
    if p c then
      if limit ≤ acc.length + 1 then acc ++ [c]
      else filterChatsLoop p limit (acc ++ [c]) t
    else filterChatsLoop p limit acc t

/-- Model of `filterChatsByKeyword`: no chats or no filters returns the input
unchanged; otherwise run the break-bounded filter loop.  (The second
`keyword != nil || model != nil || provider != nil` test in the source is
always true when this point is reached.) -/
def filterChatsByKeyword (allChats : List Chat)
    (keyword model provider : Option GoStr) (limit : Nat) : List Chat :=
  if allChats.isEmpty || (keyword.isNone && model.isNone && provider.isNone) then
    allChats
  else
    filterChatsLoop (chatHit keyword model provider) limit [] allChats

/-- Model of `listChatsInternal`: sort the cache by creation time descending, apply
the filters, and truncate to the limit. -/
def listChatsInternal (cache : Cache) (keyword model provider : Option GoStr)
    (limit : Nat) : List Chat :=
  let allChats := sortByCreateDesc (cacheVals cache)
  let filtered := filterChatsByKeyword allChats keyword model provider limit
  if limit < filtered.length then filtered.take limit else filtered

/-- The list operation in the words of claim C7 (kept distinct from the
source transcription, for comparison): exactly the sorted cached records
with at least one message satisfying every specified filter, truncated to
the limit — with no special case for an empty filter set. -/
def listChatsClaimed (cache : Cache) (keyword model provider : Option GoStr)
    (limit : Nat) : List Chat :=
  ((sortByCreateDesc (cacheVals cache)).filter
    (chatHit keyword model provider)).take limit

/-- The list operation in the words of the amended claim: when no filter is
specified, all cached records (even message-less ones) sorted descending and
truncated; when at least one filter is specified, exactly the sorted records
with at least one message satisfying every specified filter, truncated. -/
def listChatsSpec (cache : Cache) (keyword model provider : Option GoStr)
    (limit : Nat) : List Chat :=
  let sorted := sortByCreateDesc (cacheVals cache)
  if keyword.isNone && model.isNone && provider.isNone then sorted.take limit
  else (sorted.filter (chatHit keyword model provider)).take limit

/-- A record with no messages (matches no filter, but is listed when no
filter is specified). -/
def chatNoMsgs : Chat := { id := gs "e1", createTime := 3, updateTime := 3, messages := [] }

-- ---------------------------------------------------------------------------
-- Stream decoder (`provider.go` ProcessStreamableResponse)
-- ---------------------------------------------------------------------------

/-- Model of `OpenAIStreamChoiceDelta` as read by the decoder.  (`provider.go`
accesses a `ReasoningContent` field of the delta; the struct is decoded by
the abstracted JSON parser, so both fields live here.) -/
structure ChoiceDelta where
  content : GoStr
  reasoningContent : GoStr
deriving DecidableEq

/-- Model of `OpenAIStreamChoice`: a possibly-absent delta plus the finish reason
(empty until the last data chunk). -/
structure StreamChoice where
  delta : Option ChoiceDelta
  finishReason : GoStr
deriving DecidableEq

/-- Model of `OpenAIStreamResponse` (fields the decoder reads). -/
structure StreamResp where
  id : GoStr
  model : GoStr
  choices : List StreamChoice
deriving DecidableEq

/-- A `StreamChunk` event: decoded content, terminal flag, fatal error
flag. -/
structure StreamChunkM where
  id : GoStr := []
  model : GoStr := []
  content : GoStr := []
  done : Bool := false
  error : Bool := false
deriving DecidableEq

/-- Content-extraction policy of the decoder: primary content wins when
non-empty, otherwise the reasoning field is used.  An absent delta yields
empty content (the final-chunk branch checks `choice.Delta != nil`; the
non-final branch dereferences without the check, which no claim
exercises). -/
def deltaContent : Option ChoiceDelta → GoStr
  | none => []
  | some d => if !d.content.isEmpty then d.content else d.reasoningContent

/-- The SSE framing marker stripped from each data line. -/
def dataMark : GoStr := gs "data: "

/-- The terminal sentinel payload. -/
def doneMark : GoStr := gs "[DONE]"

/-- Model of `ProcessStreamableResponse` as a pure function from the list of body
lines to the emitted `StreamChunk` events.  `parse` abstracts
`sonic.UnmarshalString` into `OpenAIStreamResponse` (a `none` result models
a malformed line, which is skipped).  `readErr` models `scanner.Err()`
reporting a transport read failure after the provided lines; the error
chunk is emitted only when the loop drains every line, because both the
sentinel and a non-empty finish reason leave the loop by `break` before the
failing read would be observed. -/
def processLines (parse : GoStr → Option StreamResp) :
    List GoStr → Bool → List StreamChunkM
  | [], readErr => if readErr then [{ error := true }] else []
  | line :: rest, readErr =>
    if line.isEmpty || !dataMark.isPrefixOf line then
      processLines parse rest readErr
    else
      let data := line.drop dataMark.length
      if data = doneMark then []
      else
        match parse data with
        | none => processLines parse rest readErr
        | some resp =>
          match resp.choices with
          | [] => processLines parse rest readErr
          | choice :: _ =>
            if !choice.finishReason.isEmpty then
              [{ id := resp.id, model := resp.model,
                 content := deltaContent choice.delta, done := true }]
            else
              { id := resp.id, model := resp.model,
                content := deltaContent choice.delta } ::
                processLines parse rest readErr

/-- A trivial parse environment for concrete counterexamples. -/
def parseNone : GoStr → Option StreamResp := fun _ => none

-- ---------------------------------------------------------------------------
-- Tool-use parsing (`manager.go` containsToolUse / splitContent,
-- MCP manager ExtractMCPToolUse)
-- ---------------------------------------------------------------------------

/-- The tag vocabulary recognized by the manager. -/
def ToolTags : List GoStr := [gs "use_mcp_tool", gs "access_mcp_resource"]

/-- Model of `fmt.Sprintf("<%s>", tag)`. -/
def tagOpen (tag : GoStr) : GoStr := ('<' :: tag) ++ ['>']

/-- Model of `fmt.Sprintf("</%s>", tag)`. -/
def tagClose (tag : GoStr) : GoStr := ('<' :: '/' :: tag) ++ ['>']

/-- Model of `containsToolUse`: some recognized tag has both its open and close
marker somewhere in the content. -/
def containsToolUse (content : GoStr) : Bool :=
  ToolTags.any fun tag =>
    containsSub content (tagOpen tag) && containsSub content (tagClose tag)

/-- The first loop of `splitContent`: find the tag whose open marker occurs
earliest (strictly earlier than the best so far; `firstTagIndex` starts at
`len(content)`). -/
def firstTagScan (content : GoStr) : Nat × Option GoStr :=
  ToolTags.foldl
    (fun acc tag =>
      match idxOf content (tagOpen tag) with
      | some i => if i < acc.1 then (i, some tag) else acc
      | none => acc)
    (content.length, none)

/-- Model of `splitContent`: excise the first tool block (from the first open marker
through the end of the corresponding close marker, searched from the start
of the string) and return the trimmed remainder together with the trimmed
block.  Any fall-through returns the trimmed content and no block.  (When
the close marker ends before the open marker starts the Go slice expression
would panic; the model's `Nat` subtraction truncates instead — no claim
reaches that corner.) -/
def splitContent (content : GoStr) : GoStr × Option GoStr :=
  let ft := firstTagScan content
  match ft.2 with
  | some tag =>
    if ft.1 < content.length then
      match idxOf content (tagClose tag) with
      | some e =>
        let e2 := e + (tagClose tag).length
        (trimStr (content.take ft.1 ++ content.drop e2),
         some (trimStr ((content.drop ft.1).take (e2 - ft.1))))
      | none => (trimStr content, none)
    else (trimStr content, none)
  | none => (trimStr content, none)

/-- The parsed tool invocation (`MCPToolUse`). -/
structure MCPToolUse where
  serverName : GoStr
  toolsName : GoStr
  arguments : JObj
deriving DecidableEq

/-- Leftmost match of the Go regexp `(?s)open(.*?)close` pattern family used
by `ExtractMCPToolUse`: the segment between the first occurrence of `openT`
and the first occurrence of `closeT` after it.  (If the earliest `openT`
occurrence has no `closeT` after it, no later one does either, so searching
from the first occurrence is exactly the regexp's leftmost-match rule.) -/
def betweenTags (s openT closeT : GoStr) : Option GoStr :=
  match idxOf s openT with
  | none => none
  | some i =>
    let rest := s.drop (i + openT.length)
    match idxOf rest closeT with
    | none => none
    | some j => some (rest.take j)

/-- The literal `<arguments>` marker. -/
def argOpenTag : GoStr := gs "<arguments>"

/-- The literal `</arguments>` marker. -/
def argCloseTag : GoStr := gs "</arguments>"

/-- Lazy scan of `\x7b.*?\x7d` followed by `\s*</arguments>`: try each
closing brace in turn and stop at the first one that is followed (after
optional whitespace) by the close marker — the shortest match the lazy
quantifier yields. -/
def braceScan (acc : GoStr) : GoStr → Option GoStr
  | [] => none
  | c :: t =>
    if c == '\x7d' && argCloseTag.isPrefixOf (t.dropWhile isWS) then some (acc ++ [c])
    else braceScan (acc ++ [c]) t

/-- Match `\s*(\x7b.*?\x7d)\s*</arguments>` immediately after an
`<arguments>` occurrence. -/
def argsAt (r : GoStr) : Option GoStr :=
  match r.dropWhile isWS with
  | [] => none
  | c :: t => if c == '\x7b' then braceScan ['\x7b'] t else none

/-- The arguments regexp over the whole tool content: try every position in
order; at each `<arguments>` occurrence attempt the brace group, moving on
when it cannot be completed (the regexp engine's scan over match start
positions). -/
def argsFind : GoStr → Option GoStr
  | [] => none
  | s@(_ :: t) =>
    if argOpenTag.isPrefixOf s then
      match argsAt (s.drop argOpenTag.length) with
      | some g => some g
      | none => argsFind t
    else argsFind t

/-- Model of `ExtractMCPToolUse`: pull the `use_mcp_tool` block, then the three
required sub-fields; any missing piece (or a JSON parse failure on the
arguments) yields `none`, never an error.  `parseJSON` abstracts
`sonic.UnmarshalString` into `map[string]any`. -/
def ExtractMCPToolUse (parseJSON : GoStr → Option JObj) (content : GoStr) :
    Option MCPToolUse :=
  match betweenTags content (tagOpen (gs "use_mcp_tool")) (tagClose (gs "use_mcp_tool")) with
  | none => none
  | some toolContent =>
    match betweenTags toolContent (gs "<server_name>") (gs "</server_name>") with
    | none => none
    | some sv =>
      match betweenTags toolContent (gs "<tool_name>") (gs "</tool_name>") with
      | none => none
      | some tl =>
        match argsFind toolContent with
        | none => none
        | some argsStr =>
          match parseJSON argsStr with
          | none => none
          | some args => some ⟨trimStr sv, trimStr tl, args⟩

-- ---------------------------------------------------------------------------
-- Conversation engine (`manager.go` processUserMessage / HandleUserTextInput)
-- ---------------------------------------------------------------------------

/-- One typed part of a tool result (`mcp.CallToolResult.Content` entries):
the engine understands only text parts. -/
inductive ToolPart where
  | text (s : GoStr)
  | other
deriving DecidableEq

/-- The engine's environment: the configured turn bound and the external
collaborators (provider, JSON parser, tool session), plus the clock. -/
structure EngineEnv where
  maxTurns : Nat
  provider : List Message → Option Message
  parseJSON : GoStr → Option JObj
  callTool : GoStr → JObj → Except Unit (List ToolPart)
  now : Nat := 0

/-- The engine state observable by the claims: the transcript, the
snapshots handed to `persistChat`, and the number of completion requests
issued. -/
structure EngineState where
  messages : List Message
  persisted : List (List Message)
  providerCalls : Nat
deriving DecidableEq

/-- The tool-result message built with `NewMessageWithOption(RoleTool, text,
opts)`: role "tool", carrying forward the assistant message's
id/model/provider and the resolved server/tool/arguments.  (The option
helper only assigns non-empty fields, which over a freshly zero-valued
message equals unconditional assignment.) -/
def toolResultMsg (env : EngineEnv) (am2 : Message) (tu : MCPToolUse) (t : GoStr) : Message :=
  { role := gs "tool", content := GoContent.str t, timestamp := env.now,
    id := am2.id, model := am2.model, provider := am2.provider,
    server := tu.serverName, tool := tu.toolsName, args := tu.arguments }

/-- The bare assistant message appended on the no-tool-use branch
(`&Message{Role: RoleAssistant, Content: content}`). -/
def plainBranchMsg (content : GoStr) : Message :=
  { role := gs "assistant", content := GoContent.str content }

/-- The body of one `processUserMessage` invocation, with the recursive call
abstracted as `recur` (the recursion site passes the turn counter
incremented by one).  Appends the incoming message, issues one completion
request, then follows the source's branch structure: no response — return;
no tool use — append the assistant message and persist; tool use with an
unparsable block — return; parsable block — append the annotated assistant
message, dispatch the tool, and recurse on a first text result (anything
else — return). -/
def processBody (env : EngineEnv) (recur : EngineState → Message → EngineState)
    (st : EngineState) (message : Message) : EngineState :=
  let st1 : EngineState := { st with messages := st.messages ++ [message] }
  match env.provider st1.messages with
  | none => { st1 with providerCalls := st1.providerCalls + 1 }
  | some am =>
    let st2 := { st1 with providerCalls := st1.providerCalls + 1 }
    let content := goToString am.content
    let pc := splitContent content
    if containsToolUse content then
      match pc.2 with
      | none =>
        let st3 := { st2 with messages := st2.messages ++ [plainBranchMsg content] }
        { st3 with persisted := st3.persisted ++ [st3.messages] }
      | some toolContent =>
        match ExtractMCPToolUse env.parseJSON toolContent with
        | none => st2
        | some tu =>
          let am2 := { am with
                       tool := tu.toolsName
                       server := tu.serverName
                       args := tu.arguments
                       content := GoContent.str pc.1 }
          let st3 := { st2 with messages := st2.messages ++ [am2] }
          match env.callTool tu.toolsName tu.arguments with
          | .error _ => st3
          | .ok [] => st3
          | .ok (ToolPart.text t :: _) => recur st3 (toolResultMsg env am2 tu t)
          | .ok (ToolPart.other :: _) => st3
    else
      let st3 := { st2 with messages := st2.messages ++ [plainBranchMsg content] }
      { st3 with persisted := st3.persisted ++ [st3.messages] }

/-- The recursion of `processUserMessage`, structurally on the number of
turns still allowed (`maxTurns + 1 - turn`); zero remaining turns is
exactly the `turn > MaxTurns` guard.  `processUserMessage_turnGuard` below
proves this definition satisfies the source's guarded recursion verbatim. -/
def processGo (env : EngineEnv) : Nat → EngineState → Message → EngineState
  | 0, st, _ => st
  | r + 1, st, message => processBody env (processGo env r) st message

/-- Model of `processUserMessage` at a given turn counter. -/
def processUserMessage (env : EngineEnv) (turn : Nat) (st : EngineState)
    (message : Message) : EngineState :=
  processGo env (env.maxTurns + 1 - turn) st message

/-- The user message built from raw text input
(`NewMessageWithOption(RoleUser, userInput, &MessageOption{})`). -/
def mkUserMsg (input : GoStr) (now : Nat) : Message :=
  { role := gs "user", content := GoContent.str input, timestamp := now }

/-- What `HandleUserTextInput` hands back to its caller: the final engine
state, the returned message, and whether the "no new message" error was
returned in its place. -/
structure HandleResult where
  state : EngineState
  retMsg : Option Message
  noNewMessage : Bool
deriving DecidableEq

/-- Model of `HandleUserTextInput` (steps 5-7): build the user message, process it
starting at turn 1, and return the last transcript message if the
transcript grew, else the "no new message" error. -/
def handleUserTextInput (env : EngineEnv) (msgs0 : List Message)
    (userInput : GoStr) : HandleResult :=
  let message := mkUserMsg userInput env.now
  let st := processUserMessage env 1 ⟨msgs0, [], 0⟩ message
  if msgs0.length < st.messages.length then
    { state := st, retMsg := st.messages.getLast?, noNewMessage := false }
  else
    { state := st, retMsg := none, noNewMessage := true }

/-- The provider behaviour of claim C3: every completion returns an
assistant message whose content carries a well-formed tool-use block, and
every dispatched tool call succeeds with a first text result. -/
def alwaysToolUse (env : EngineEnv) : Prop :=
  ∀ msgs : List Message, ∃ am tc tu t rest,
    env.provider msgs = some am ∧
    containsToolUse (goToString am.content) = true ∧
    (splitContent (goToString am.content)).2 = some tc ∧
    ExtractMCPToolUse env.parseJSON tc = some tu ∧
    env.callTool tu.toolsName tu.arguments = .ok (ToolPart.text t :: rest)

-- ---------------------------------------------------------------------------
-- Concrete environments and literals used by witnesses
-- ---------------------------------------------------------------------------

/-- Literal segment: the `use_mcp_tool` open marker. -/
def useOpenT : GoStr := tagOpen (gs "use_mcp_tool")

/-- Literal segment: the `use_mcp_tool` close marker. -/
def useCloseT : GoStr := tagClose (gs "use_mcp_tool")

/-- Literal segment: the server-name open marker. -/
def svOpenT : GoStr := gs "<server_name>"

/-- Literal segment: the server-name close marker. -/
def svCloseT : GoStr := gs "</server_name>"

/-- Literal segment: the tool-name open marker. -/
def tlOpenT : GoStr := gs "<tool_name>"

/-- Literal segment: the tool-name close marker. -/
def tlCloseT : GoStr := gs "</tool_name>"

/-- Literal segment: the arguments element with the claim's JSON object. -/
def argSegT : GoStr := gs "<arguments>\x7b\"a\":1\x7d</arguments>"

/-- The claim's argument text. -/
def c5Args : GoStr := gs "\x7b\"a\":1\x7d"

/-- The claim's parsed argument object. -/
def c5ArgsObj : JObj := [(gs "a", JVal.num 1)]

/-- The inner part of the claim's tool block, around server name `S` and
tool name `T`. -/
def c5Inner (S T : GoStr) : GoStr :=
  svOpenT ++ (S ++ (svCloseT ++ (tlOpenT ++ (T ++ (tlCloseT ++ argSegT)))))

/-- The claim's embedded tool block with server name `S` and tool name
`T`. -/
def c5Block (S T : GoStr) : GoStr := useOpenT ++ (c5Inner S T ++ useCloseT)

/-- The parse environment used in witnesses: recognizes exactly the claim's
argument text. -/
def parseW : GoStr → Option JObj :=
  fun s => if s = c5Args then some c5ArgsObj else none

/-- A provider message carrying the concrete tool block. -/
def amW : Message :=
  { role := gs "assistant", content := GoContent.str (c5Block (gs "S") (gs "T")) }

/-- An engine environment that always emits a tool-use block and whose tool
calls succeed with a text result. -/
def envW : EngineEnv :=
  { maxTurns := 2
    provider := fun _ => some amW
    parseJSON := parseW
    callTool := fun _ _ => .ok [ToolPart.text (gs "done")] }

/-- An engine environment whose provider never returns a message. -/
def envN : EngineEnv :=
  { maxTurns := 10
    provider := fun _ => none
    parseJSON := fun _ => none
    callTool := fun _ _ => .error () }

-- ---------------------------------------------------------------------------
-- Occurrence lemmas for `idxOf` (used by the tool-parsing claims)
-- ---------------------------------------------------------------------------

/-- A guaranteed mismatch between a pattern and a literal before either runs
out: somewhere in the common range the characters differ. -/
def clash : GoStr → GoStr → Bool
  | p :: ps, l :: ls => p != l || clash ps ls
  | _, _ => false

/-- No position of the literal can start a match of the pattern: a clash at
every suffix of the literal. -/
def stepClash : GoStr → GoStr → Bool
  | _, [] => true
  | pat, l :: ls => clash pat (l :: ls) && stepClash pat ls

-- ---------------------------------------------------------------------------
-- C9: access_mcp_resource block without use_mcp_tool
-- ---------------------------------------------------------------------------

/-- An assistant content carrying only an `access_mcp_resource` element. -/
def c9Content : GoStr :=
  tagOpen (gs "access_mcp_resource") ++ tagClose (gs "access_mcp_resource")

/-- A provider message carrying that content. -/
def amA : Message := { role := gs "assistant", content := GoContent.str c9Content }

/-- An engine environment whose provider always answers with the
`access_mcp_resource`-only content. -/
def envA : EngineEnv :=
  { maxTurns := 10
    provider := fun _ => some amA
    parseJSON := fun _ => none
    callTool := fun _ _ => .error () }

-- ===========================================================================
-- Theorems
-- ===========================================================================

-- ---------------------------------------------------------------------------
-- Store lemmas
-- ---------------------------------------------------------------------------

theorem lookupC_cons (p : GoStr × Chat) (t : Cache) (q : GoStr) :
    lookupC (p :: t) q = if p.1 = q then some p.2 else lookupC t q := by
  cases p
  rfl

theorem eraseC_cons (k : GoStr) (p : GoStr × Chat) (t : Cache) :
    eraseC k (p :: t) = if p.1 = k then eraseC k t else p :: eraseC k t := by
  by_cases h : p.1 = k <;> simp [eraseC, List.filter_cons, h]

theorem lookupC_eraseC_self (k : GoStr) (cache : Cache) :
    lookupC (eraseC k cache) k = none := by
  induction cache with
  | nil => rfl
  | cons p t ih =>
    by_cases h : p.1 = k
    · rw [eraseC_cons]
      simpa [h] using ih
    · rw [eraseC_cons]
      simpa [h, lookupC_cons] using ih

theorem lookupC_append (l₁ l₂ : Cache) (q : GoStr) :
    lookupC (l₁ ++ l₂) q =
      match lookupC l₁ q with
      | some c => some c
      | none => lookupC l₂ q := by
  induction l₁ with
  | nil => rfl
  | cons p t ih =>
    by_cases h : p.1 = q
    · simp [lookupC_cons, h]
    · simp [lookupC_cons, h, ih]

theorem lookupC_eraseC_ne (k q : GoStr) (cache : Cache) (hne : ¬ k = q) :
    lookupC (eraseC k cache) q = lookupC cache q := by
  induction cache with
  | nil => rfl
  | cons p t ih =>
    rw [eraseC_cons]
    by_cases h : p.1 = k
    · have hpq : ¬ p.1 = q := by
        intro hc
        exact hne (by rw [← h, hc])
      simp [h, lookupC_cons, hpq, ih, hne]
    · by_cases hq : p.1 = q
      · have hqk : ¬ q = k := by
          intro hc
          exact hne (by rw [hc])
        simp [h, lookupC_cons, hq, hqk]
      · simp [h, lookupC_cons, hq, ih]

theorem lookupC_insertC_self (k : GoStr) (c : Chat) (cache : Cache) :
    lookupC (insertC k c cache) k = some c := by
  rw [insertC, lookupC_append, lookupC_eraseC_self]
  simp [lookupC_cons]

theorem lookupC_insertC_ne (k q : GoStr) (c : Chat) (cache : Cache) (hne : ¬ k = q) :
    lookupC (insertC k c cache) q = lookupC cache q := by
  rw [insertC, lookupC_append, lookupC_eraseC_ne k q cache hne]
  cases h : lookupC cache q with
  | some d => rfl
  | none => simp [lookupC_cons, hne, lookupC]

/-- C1: the claim says a failed add restores the previously cached record
with the same ID.  The code instead rolls an add back with
`delete(fr.cache, chat.ID)`, so when the ID already existed the old record
is lost: starting from a cache holding `chatA` under `"c1"`, a failed
`addChatInternal` of `chatB` (same ID) returns the persistence error but
leaves a cache in which `"c1"` resolves to nothing, not to `chatA`. -/
theorem c1_add_rollback_loses_existing_record :
    lookupC (StoreState.cache ⟨[(gs "c1", chatA)], [chatA]⟩) (gs "c1") = some chatA ∧
    lookupC (addChatInternal false ⟨[(gs "c1", chatA)], [chatA]⟩ chatB).1.cache (gs "c1")
      = none ∧
    (addChatInternal false ⟨[(gs "c1", chatA)], [chatA]⟩ chatB).2.2.isSome = true := by
  refine ⟨by decide, by decide, by decide⟩

/-- C2 counterexample: the claim says system-role messages are filtered on
every write, including creation.  `CreateChat` stores the given messages
unfiltered, so a record created from a list containing a system message
still contains it. -/
theorem c2_create_does_not_filter_system :
    (createdChat (gs "x") 0 0 [sysMsg]).messages.any
      (fun m => m.role = gs "system") = true := by
  decide

/-- C2 (amended): system-role messages are filtered on update writes —
`UpdateMessages` keeps exactly the non-system messages of its input, so a
record it produces contains no message with role "system" — but creation
(`CreateChat`) stores the given message list unchanged and performs no
filtering. -/
theorem c2_filter_on_update_not_on_create :
    (∀ (c : Chat) (msgs : List Message) (now : Nat),
      ((updateMessages c msgs now).messages.all
        (fun m => ¬ m.role = gs "system")) = true) ∧
    (∀ (chatID : GoStr) (ts1 ts2 : Nat) (msgs : List Message),
      (createdChat chatID ts1 ts2 msgs).messages = msgs) := by
  constructor
  · intro c msgs now
    simp only [updateMessages, List.all_eq_true]
    intro m hm
    have := List.of_mem_filter hm
    simpa using this
  · intro chatID ts1 ts2 msgs
    rfl

-- ---------------------------------------------------------------------------
-- C8: delete idempotence
-- ---------------------------------------------------------------------------

/-- C8: deleting an absent chat ID is a no-op success — it returns
`(false, nil)` whatever the persistence environment would do, and leaves the
cache and the backing file untouched — and (with persistence succeeding)
deleting the same ID twice leaves the store in exactly the state reached by
deleting it once. -/
theorem c8_delete_idempotent (s : StoreState) (chatID : GoStr)
    (habs : lookupC s.cache chatID = none) :
    (∀ persistOk : Bool, deleteChatInternal persistOk s chatID = (s, false, none)) ∧
    (deleteChatInternal true (deleteChatInternal true s chatID).1 chatID).1
      = (deleteChatInternal true s chatID).1 := by
  constructor
  · intro persistOk
    simp [deleteChatInternal, habs]
  · simp [deleteChatInternal, habs]

/-- Concrete instantiation of the delete-idempotence theorem. -/
theorem c8_delete_idempotent_witness :
    lookupC (StoreState.cache ⟨[(gs "c1", chatA)], [chatA]⟩) (gs "zz") = none ∧
    (∀ persistOk : Bool,
      deleteChatInternal persistOk ⟨[(gs "c1", chatA)], [chatA]⟩ (gs "zz")
        = (⟨[(gs "c1", chatA)], [chatA]⟩, false, none)) := by
  have h : lookupC (StoreState.cache ⟨[(gs "c1", chatA)], [chatA]⟩) (gs "zz") = none := by
    decide
  exact ⟨h, (c8_delete_idempotent ⟨[(gs "c1", chatA)], [chatA]⟩ (gs "zz") h).1⟩

/-- Deleting a present ID twice equals deleting it once (complement check to
the absent case; uses the same theorem at a state that does contain the
id). -/
theorem c8_delete_present_twice :
    (deleteChatInternal true
        (deleteChatInternal true ⟨[(gs "c1", chatA)], [chatA]⟩ (gs "c1")).1 (gs "c1")).1
      = (deleteChatInternal true ⟨[(gs "c1", chatA)], [chatA]⟩ (gs "c1")).1 := by
  decide

-- ---------------------------------------------------------------------------
-- C10: get of an absent chat is success-with-nil
-- ---------------------------------------------------------------------------

/-- C10: for an ID absent from the cache, `getChatInternal` returns
`(nil, nil)` and the synchronous wrapper `Chat` returns `(nil, nil)` as
well: absence is reported as success-with-nil through both the asynchronous
primitive and the synchronous wrapper (the typed-nil `*Chat` in `OpResp.Data`
passes the wrapper's type assertion), never as an error. -/
theorem c10_get_absent_is_nil_nil (cache : Cache) (chatID : GoStr)
    (habs : lookupC cache chatID = none) :
    getChatInternal cache chatID = (none, none) ∧
    chatSync cache chatID = (none, none) := by
  constructor
  · simp [getChatInternal, habs]
  · simp [chatSync, getChatResp, getChatInternal, habs]

/-- Concrete instantiation of the absent-get theorem. -/
theorem c10_get_absent_witness :
    lookupC [(gs "c1", chatA)] (gs "zz") = none ∧
    chatSync [(gs "c1", chatA)] (gs "zz") = (none, none) := by
  have h : lookupC [(gs "c1", chatA)] (gs "zz") = none := by decide
  exact ⟨h, (c10_get_absent_is_nil_nil [(gs "c1", chatA)] (gs "zz") h).2⟩

/-- C7 counterexample: with no filters specified, the code returns every
cached record, including one with no messages — but such a record has no
message satisfying every specified filter, so the claim as stated excludes
it. -/
theorem c7_list_no_filter_keeps_empty_chat :
    listChatsInternal [(gs "e1", chatNoMsgs)] none none none 5
      ≠ listChatsClaimed [(gs "e1", chatNoMsgs)] none none none 5 := by
  decide

theorem filterChatsLoop_eq_take_filter (p : Chat → Bool) (limit : Nat) :
    ∀ (l : List Chat) (acc : List Chat), acc.length < limit →
      filterChatsLoop p limit acc l = acc ++ (l.filter p).take (limit - acc.length) := by
  intro l
  induction l with
  | nil =>
    intro acc _
    simp [filterChatsLoop]
  | cons c t ih =>
    intro acc hacc
    by_cases hp : p c
    · by_cases hstop : limit ≤ acc.length + 1
      · have h1 : limit - acc.length = 1 := by omega
        simp [filterChatsLoop, hp, hstop, List.filter_cons_of_pos hp, h1]
      · have hlt : (acc ++ [c]).length < limit := by
          simp only [List.length_append, List.length_cons, List.length_nil]
          omega
        have h2 : limit - acc.length = (limit - (acc.length + 1)) + 1 := by omega
        rw [filterChatsLoop, if_pos hp, if_neg hstop, ih (acc ++ [c]) hlt,
          List.filter_cons_of_pos hp, h2, List.take_succ_cons, List.append_assoc]
        simp
    · rw [filterChatsLoop, if_neg hp, ih acc hacc, List.filter_cons_of_neg hp]

theorem truncate_eq_take (limit : Nat) (l : List Chat) :
    (if limit < l.length then l.take limit else l) = l.take limit := by
  by_cases h : limit < l.length
  · simp [h]
  · rw [if_neg h, List.take_of_length_le (Nat.le_of_not_lt h)]

/-- C7 (amended): for every cache, filter combination, and limit, the list
operation returns, when at least one filter is specified, exactly the cached
records having a message that simultaneously satisfies every specified
filter (keyword case-insensitive in the text content, including structured
parts; model and provider as case-insensitive substrings of the non-empty
corresponding message fields), sorted by creation time descending and
truncated to the limit; when no filter is specified it returns all cached
records — including records with no messages — sorted and truncated the same
way. -/
theorem c7_list_matches_amended_spec (cache : Cache)
    (keyword model provider : Option GoStr) (limit : Nat) :
    listChatsInternal cache keyword model provider limit
      = listChatsSpec cache keyword model provider limit := by
  unfold listChatsInternal listChatsSpec filterChatsByKeyword
  by_cases hnofilters : keyword.isNone && model.isNone && provider.isNone
  · simp only [hnofilters, Bool.or_true, if_true]
    rw [truncate_eq_take]
  · simp only [hnofilters, Bool.or_false, Bool.and_false]
    by_cases hempty : (sortByCreateDesc (cacheVals cache)).isEmpty
    · have : sortByCreateDesc (cacheVals cache) = [] := by
        simpa [List.isEmpty_iff] using hempty
      simp [this, hempty, hnofilters]
    · simp only [hempty, Bool.false_or, hnofilters, if_false]
      by_cases hzero : limit = 0
      · subst hzero
        rw [truncate_eq_take]
        cases hfc : (sortByCreateDesc (cacheVals cache)) with
        | nil => exact absurd hfc (by simpa [List.isEmpty_iff] using hempty)
        | cons c t =>
          simp only [List.take_zero]
          -- with limit 0 the loop stops after at most one append; the final
          -- truncation to 0 elements empties it either way
          have : ∀ (u : List Chat) (acc : List Chat),
              filterChatsLoop (chatHit keyword model provider) 0 acc u = acc ∨
              ∃ d, filterChatsLoop (chatHit keyword model provider) 0 acc u = acc ++ [d] := by
            intro u
            induction u with
            | nil =>
              intro acc
              exact Or.inl rfl
            | cons d v ihu =>
              intro acc
              by_cases hd : chatHit keyword model provider d
              · simp [filterChatsLoop, hd]
              · simpa [filterChatsLoop, hd] using ihu acc
          rcases this (c :: t) [] with h | ⟨d, h⟩ <;> simp [h]
      · have hpos : 0 < limit := Nat.pos_of_ne_zero hzero
        rw [filterChatsLoop_eq_take_filter (chatHit keyword model provider) limit _ []
          (by simpa using hpos), truncate_eq_take]
        simp [List.take_take]

/-- C4 counterexample: the claim says the sentinel line produces exactly one
terminal event (Done flag set).  Feeding the decoder the sentinel line
produces no events at all — zero Done-flagged events, not one. -/
theorem c4_sentinel_produces_no_done_event :
    processLines parseNone [gs "data: [DONE]"] false = [] ∧
    ¬ (processLines parseNone [gs "data: [DONE]"] false).countP
        (fun e => e.done) = 1 := by
  constructor
  · rfl
  · decide

/-- C4 (amended): when the decoder reads a terminal sentinel data line it
stops immediately: no event is emitted for the sentinel — neither a
Done-flagged event nor an error event — and no further event is produced
for that request, whatever lines follow and whether or not the underlying
reader would subsequently fail.  Part one: a stream starting at the
sentinel emits nothing at all.  Part two: in any stream, everything after
the first sentinel line (the remaining lines and the final read outcome)
is irrelevant to the emitted events. -/
theorem c4_sentinel_ends_stream_silently :
    (∀ (parse : GoStr → Option StreamResp) (rest : List GoStr) (readErr : Bool),
      processLines parse (gs "data: [DONE]" :: rest) readErr = []) ∧
    (∀ (parse : GoStr → Option StreamResp) (pre rest rest2 : List GoStr)
      (re re2 : Bool),
      processLines parse (pre ++ (gs "data: [DONE]" :: rest)) re
        = processLines parse (pre ++ (gs "data: [DONE]" :: rest2)) re2) := by
  constructor
  · intro parse rest readErr
    rfl
  · intro parse pre
    induction pre with
    | nil =>
      intro rest rest2 re re2
      rfl
    | cons line pre ih =>
      intro rest rest2 re re2
      simp only [List.cons_append, processLines]
      by_cases h1 : (line.isEmpty || !dataMark.isPrefixOf line) = true
      · rw [if_pos h1, if_pos h1]
        exact ih rest rest2 re re2
      · rw [if_neg h1, if_neg h1]
        by_cases h2 : line.drop dataMark.length = doneMark
        · rw [if_pos h2, if_pos h2]
        · rw [if_neg h2, if_neg h2]
          cases hp : parse (line.drop dataMark.length) with
          | none => exact ih rest rest2 re re2
          | some resp =>
            cases hc : resp.choices with
            | nil =>
              simp only [hc]
              exact ih rest rest2 re re2
            | cons choice cs =>
              simp only [hc]
              by_cases h3 : (!choice.finishReason.isEmpty) = true
              · rw [if_pos h3, if_pos h3]
              · rw [if_neg h3, if_neg h3]
                exact congrArg (List.cons _) (ih rest rest2 re re2)

/-- Sanity anchor: the structured block equals the claim's literal text. -/
theorem c5Block_literal :
    c5Block (gs "S") (gs "T")
      = gs "<use_mcp_tool><server_name>S</server_name><tool_name>T</tool_name><arguments>\x7b\"a\":1\x7d</arguments></use_mcp_tool>" := by
  decide

-- ---------------------------------------------------------------------------
-- Engine theorems
-- ---------------------------------------------------------------------------

/-- The fuel-based model satisfies the source's guarded recursion: at each
entry, a turn counter past `MaxTurns` returns the state unchanged, and
otherwise one body runs with the recursive call at `turn + 1`. -/
theorem processUserMessage_turnGuard (env : EngineEnv) (turn : Nat)
    (st : EngineState) (message : Message) :
    processUserMessage env turn st message =
      if env.maxTurns < turn then st
      else processBody env (fun st2 m2 => processUserMessage env (turn + 1) st2 m2)
        st message := by
  by_cases h : env.maxTurns < turn
  · have h0 : env.maxTurns + 1 - turn = 0 := by omega
    simp [processUserMessage, h0, processGo, h]
  · have hr : env.maxTurns + 1 - turn = (env.maxTurns + 1 - (turn + 1)) + 1 := by omega
    simp only [processUserMessage, hr, processGo, if_neg h]

theorem processGo_providerCalls (env : EngineEnv) (H : alwaysToolUse env) :
    ∀ (r : Nat) (st : EngineState) (message : Message),
      (processGo env r st message).providerCalls = st.providerCalls + r := by
  intro r
  induction r with
  | zero =>
    intro st message
    simp [processGo]
  | succ r ih =>
    intro st message
    obtain ⟨am, tc, tu, t, rest, hp, hc, hs, he, hct⟩ := H (st.messages ++ [message])
    simp only [processGo, processBody, hp, hc, hs, he, hct, if_true]
    rw [ih]
    simp
    omega

/-- C3: for a configured `MaxTurns` of at least one and any provider
behaviour in which every returned assistant message carries a well-formed
tool-use block whose tool call succeeds with a text result, the turn loop
started at turn 1 terminates (it is a total function of the fuel
`MaxTurns + 1 - turn`) having issued exactly `MaxTurns` completion
requests. -/
theorem c3_turn_bound (env : EngineEnv) (msgs0 : List Message) (message : Message)
    (hmax : 1 ≤ env.maxTurns) (H : alwaysToolUse env) :
    (processUserMessage env 1 ⟨msgs0, [], 0⟩ message).providerCalls = env.maxTurns := by
  rw [processUserMessage]
  have h1 : env.maxTurns + 1 - 1 = env.maxTurns := by omega
  rw [h1, processGo_providerCalls env H]
  simp

set_option maxRecDepth 16384 in
/-- Concrete instantiation of the turn-bound theorem: a provider that
always emits the concrete tool block, `MaxTurns = 2`, exactly two
completion requests. -/
theorem c3_turn_bound_witness :
    (1 ≤ envW.maxTurns ∧ alwaysToolUse envW) ∧
    (processUserMessage envW 1 ⟨[], [], 0⟩ (mkUserMsg (gs "hi") 0)).providerCalls
      = envW.maxTurns := by
  have hA : alwaysToolUse envW := by
    intro msgs
    exact ⟨amW, c5Block (gs "S") (gs "T"), ⟨gs "S", gs "T", c5ArgsObj⟩, gs "done", [],
      rfl, by decide, by decide, by decide, rfl⟩
  exact ⟨⟨by decide, hA⟩,
    c3_turn_bound envW [] (mkUserMsg (gs "hi") 0) (by decide) hA⟩

set_option maxRecDepth 4096 in
/-- C6 counterexample: with a provider returning no message, the caller of
`HandleUserTextInput` does not receive the "no new message" error with a
nil message — it receives the just-appended user message with no error. -/
theorem c6_caller_gets_user_message_not_error :
    (handleUserTextInput envN [] (gs "hi")).noNewMessage = false ∧
    (handleUserTextInput envN [] (gs "hi")).retMsg = some (mkUserMsg (gs "hi") 0) ∧
    (mkUserMsg (gs "hi") 0).role = gs "user" := by
  refine ⟨by decide, by decide, by decide⟩

/-- C6 (amended): when the provider returns no assistant message for the
turn, the engine terminates the turn with nothing persisted and no
assistant message appended; but because the user message was appended to
the transcript before the completion request, `HandleUserTextInput`
returns that user message with a nil error — the "no new message" error is
returned only when processing appended nothing at all. -/
theorem c6_provider_nil_returns_user_message (env : EngineEnv)
    (msgs0 : List Message) (input : GoStr)
    (hnone : env.provider (msgs0 ++ [mkUserMsg input env.now]) = none)
    (hmax : 1 ≤ env.maxTurns) :
    (handleUserTextInput env msgs0 input).state.persisted = [] ∧
    (handleUserTextInput env msgs0 input).state.messages
      = msgs0 ++ [mkUserMsg input env.now] ∧
    (handleUserTextInput env msgs0 input).retMsg = some (mkUserMsg input env.now) ∧
    (handleUserTextInput env msgs0 input).noNewMessage = false := by
  have hguard : ¬ env.maxTurns < 1 := by omega
  have hstep : processUserMessage env 1 ⟨msgs0, [], 0⟩ (mkUserMsg input env.now)
      = ({ messages := msgs0 ++ [mkUserMsg input env.now], persisted := [],
           providerCalls := 1 } : EngineState) := by
    rw [processUserMessage_turnGuard, if_neg hguard]
    simp [processBody, hnone]
  simp only [handleUserTextInput, hstep]
  have hlen : msgs0.length < (msgs0 ++ [mkUserMsg input env.now]).length := by
    simp
  simp [hlen, List.getLast?_concat]

/-- Concrete instantiation of the provider-returns-nothing theorem. -/
theorem c6_provider_nil_witness :
    (envN.provider ([] ++ [mkUserMsg (gs "hi") envN.now]) = none
      ∧ 1 ≤ envN.maxTurns) ∧
    (handleUserTextInput envN [] (gs "hi")).retMsg
      = some (mkUserMsg (gs "hi") envN.now) := by
  exact ⟨⟨rfl, by decide⟩,
    (c6_provider_nil_returns_user_message envN [] (gs "hi") rfl (by decide)).2.2.1⟩

theorem isPre_cons (p c : Char) (ps s : GoStr) :
    (p :: ps).isPrefixOf (c :: s) = (p == c && ps.isPrefixOf s) := rfl

theorem isPre_append (pat : GoStr) :
    ∀ (u : GoStr), pat.isPrefixOf u = true → ∀ (v : GoStr), pat.isPrefixOf (u ++ v) = true := by
  induction pat with
  | nil =>
    intro u _ v
    simp
  | cons p ps ih =>
    intro u hu v
    cases u with
    | nil => simp at hu
    | cons c u' =>
      rw [List.cons_append, isPre_cons]
      rw [isPre_cons, Bool.and_eq_true] at hu
      rw [hu.1, ih u' hu.2 v]
      rfl

theorem isPre_refl (pat : GoStr) : pat.isPrefixOf pat = true := by
  induction pat with
  | nil => simp
  | cons p ps ih => simp [isPre_cons, ih]

theorem clash_not_isPre (pat : GoStr) :
    ∀ (lit : GoStr), clash pat lit = true → ∀ (rest : GoStr),
      pat.isPrefixOf (lit ++ rest) = false := by
  induction pat with
  | nil =>
    intro lit h rest
    cases lit <;> simp [clash] at h
  | cons p ps ih =>
    intro lit h rest
    cases lit with
    | nil => simp [clash] at h
    | cons l ls =>
      rw [List.cons_append, isPre_cons]
      rw [show clash (p :: ps) (l :: ls) = (p != l || clash ps ls) from rfl,
        Bool.or_eq_true] at h
      rcases h with h | h
      · have hne : (p == l) = false := beq_eq_false_iff_ne.mpr (by simpa using h)
        rw [hne]
        rfl
      · rw [ih ls h rest]
        exact Bool.and_false _

theorem idxOf_append_lit (pat : GoStr) :
    ∀ (lit : GoStr), stepClash pat lit = true → ∀ (rest : GoStr),
      idxOf (lit ++ rest) pat = (idxOf rest pat).map (· + lit.length) := by
  intro lit
  induction lit with
  | nil =>
    intro _ rest
    cases h : idxOf rest pat <;> simp [h]
  | cons l ls ih =>
    intro h rest
    rw [show stepClash pat (l :: ls) = (clash pat (l :: ls) && stepClash pat ls) from rfl,
      Bool.and_eq_true] at h
    have hfalse : pat.isPrefixOf (l :: (ls ++ rest)) = false :=
      clash_not_isPre pat (l :: ls) h.1 rest
    rw [List.cons_append, idxOf, hfalse]
    simp only [Bool.false_eq_true, if_false]
    rw [ih h.2 rest]
    cases hx : idxOf rest pat <;> simp [hx]
    omega

theorem idxOf_append_noHead (p : Char) (pat' : GoStr) :
    ∀ (xs : GoStr), (∀ c ∈ xs, ¬ c = p) → ∀ (rest : GoStr),
      idxOf (xs ++ rest) (p :: pat') = (idxOf rest (p :: pat')).map (· + xs.length) := by
  intro xs
  induction xs with
  | nil =>
    intro _ rest
    cases h : idxOf rest (p :: pat') <;> simp [h]
  | cons c t ih =>
    intro hxs rest
    have hc : ¬ c = p := hxs c (by simp)
    have hfalse : (p :: pat').isPrefixOf (c :: (t ++ rest)) = false := by
      rw [isPre_cons]
      have : (p == c) = false := by
        cases hpc : p == c
        · rfl
        · exact absurd (by simpa [eq_comm] using (beq_iff_eq.mp hpc)) hc
      rw [this]
      rfl
    rw [List.cons_append, idxOf, hfalse]
    simp only [Bool.false_eq_true, if_false]
    rw [ih (fun d hd => hxs d (by simp [hd])) rest]
    cases hx : idxOf rest (p :: pat') <;> simp [hx]
    omega

theorem idxOf_noHead_none (p : Char) (pat' xs : GoStr) (hxs : ∀ c ∈ xs, ¬ c = p) :
    idxOf xs (p :: pat') = none := by
  have h := idxOf_append_noHead p pat' xs hxs []
  rw [List.append_nil] at h
  rw [h]
  rfl

theorem idxOf_isPre (pat : GoStr) :
    ∀ (s : GoStr) (i : Nat), idxOf s pat = some i → pat.isPrefixOf (s.drop i) = true := by
  intro s
  induction s with
  | nil =>
    intro i h
    rw [idxOf] at h
    by_cases hp : pat.isPrefixOf [] = true
    · rw [if_pos hp] at h
      simp only [Option.some.injEq] at h
      subst h
      simpa using hp
    · rw [if_neg hp] at h
      simp at h
  | cons c t ih =>
    intro i h
    rw [idxOf] at h
    by_cases hp : pat.isPrefixOf (c :: t) = true
    · rw [if_pos hp] at h
      simp only [Option.some.injEq] at h
      subst h
      simpa using hp
    · rw [if_neg hp] at h
      simp only [Option.map_eq_some'] at h
      obtain ⟨i', hi', rfl⟩ := h
      simpa using ih i' hi'

theorem idxOf_lt_length (p : Char) (pat' s : GoStr) (i : Nat)
    (h : idxOf s (p :: pat') = some i) : i < s.length := by
  have hpre := idxOf_isPre (p :: pat') s i h
  by_contra hge
  rw [List.drop_eq_nil_of_le (by omega)] at hpre
  simp [List.isPrefixOf] at hpre

theorem containsSub_of_isPre_drop (pat : GoStr) :
    ∀ (s : GoStr) (i : Nat), pat.isPrefixOf (s.drop i) = true → containsSub s pat = true := by
  intro s
  induction s with
  | nil =>
    intro i h
    rw [List.drop_nil] at h
    simp [containsSub, idxOf, h]
  | cons c t ih =>
    intro i h
    by_cases hp : pat.isPrefixOf (c :: t) = true
    · simp [containsSub, idxOf, hp]
    · cases i with
      | zero => exact absurd (by simpa using h) hp
      | succ i' =>
        have hc := ih i' (by simpa using h)
        rw [containsSub] at hc ⊢
        rw [idxOf, if_neg hp]
        cases hx : idxOf t pat with
        | none => rw [hx] at hc; simp at hc
        | some j => simp [hx]

theorem containsSub_some (s pat : GoStr) (h : containsSub s pat = true) :
    ∃ i, idxOf s pat = some i := by
  rw [containsSub, Option.isSome_iff_exists] at h
  exact h

theorem containsSub_append_left (u s pat : GoStr) (h : containsSub s pat = true) :
    containsSub (u ++ s) pat = true := by
  obtain ⟨i, hi⟩ := containsSub_some s pat h
  have hpre := idxOf_isPre pat s i hi
  have hd : (u ++ s).drop (u.length + i) = s.drop i := List.drop_append i
  exact containsSub_of_isPre_drop pat (u ++ s) (u.length + i) (hd ▸ hpre)

theorem containsSub_append_right (s v pat : GoStr) (h : containsSub s pat = true) :
    containsSub (s ++ v) pat = true := by
  obtain ⟨i, hi⟩ := containsSub_some s pat h
  have hpre := idxOf_isPre pat s i hi
  have hpre2 : pat.isPrefixOf ((s ++ v).drop i) = true := by
    rw [List.drop_append_eq_append_drop]
    exact isPre_append pat (s.drop i) hpre _
  exact containsSub_of_isPre_drop pat (s ++ v) i hpre2

theorem isPre_of_isPre_take (pat : GoStr) :
    ∀ (u : GoStr) (m : Nat), pat.isPrefixOf (u.take m) = true → pat.isPrefixOf u = true := by
  induction pat with
  | nil =>
    intro u m _
    simp
  | cons p ps ih =>
    intro u m h
    cases u with
    | nil => simp at h
    | cons c u' =>
      cases m with
      | zero => simp at h
      | succ m' =>
        rw [List.take_succ_cons, isPre_cons, Bool.and_eq_true] at h
        rw [isPre_cons, h.1, ih u' m' h.2]
        rfl

theorem containsSub_of_take (s pat : GoStr) (m : Nat)
    (h : containsSub (s.take m) pat = true) : containsSub s pat = true := by
  obtain ⟨i, hi⟩ := containsSub_some _ pat h
  have hpre := idxOf_isPre pat _ i hi
  rw [List.drop_take] at hpre
  have hpre2 := isPre_of_isPre_take pat (s.drop i) (m - i) hpre
  exact containsSub_of_isPre_drop pat s i hpre2

theorem containsSub_of_drop (s pat : GoStr) (n : Nat)
    (h : containsSub (s.drop n) pat = true) : containsSub s pat = true := by
  obtain ⟨i, hi⟩ := containsSub_some _ pat h
  have hpre := idxOf_isPre pat _ i hi
  rw [List.drop_drop] at hpre
  exact containsSub_of_isPre_drop pat s (n + i) hpre

theorem trimStr_infix (t : GoStr) : ∃ u v, t = u ++ (trimStr t ++ v) := by
  refine ⟨t.takeWhile isWS, ((t.dropWhile isWS).reverse.takeWhile isWS).reverse, ?_⟩
  conv_lhs => rw [← List.takeWhile_append_dropWhile isWS t]
  congr 1
  conv_lhs => rw [← List.reverse_reverse (t.dropWhile isWS),
    ← List.takeWhile_append_dropWhile isWS ((t.dropWhile isWS).reverse)]
  rw [List.reverse_append]
  rfl

theorem containsSub_of_trim (t pat : GoStr) (h : containsSub (trimStr t) pat = true) :
    containsSub t pat = true := by
  obtain ⟨u, v, huv⟩ := trimStr_infix t
  rw [huv]
  exact containsSub_append_left u _ pat (containsSub_append_right _ v pat h)

theorem containsSub_of_trim_take_drop (content pat : GoStr) (i k : Nat)
    (h : containsSub (trimStr ((content.drop i).take k)) pat = true) :
    containsSub content pat = true :=
  containsSub_of_drop content pat i
    (containsSub_of_take (content.drop i) pat k (containsSub_of_trim _ pat h))

/-- C9: for content holding an `access_mcp_resource` block (open marker
first at `i`, close marker first at `j`, well-ordered) and no
`use_mcp_tool` open marker anywhere, the detection and splitting steps do
recognize the block — `containsToolUse` is true and `splitContent` yields a
tool part — yet `ExtractMCPToolUse` returns no invocation for any JSON
parser; consequently a turn whose provider answers with such content
returns after the one completion request with only the incoming message
appended: no assistant message is appended and nothing is persisted.  (The
ordering hypothesis keeps the run inside the slice bounds the Go code can
take without panicking.) -/
theorem c9_access_block_without_use_tool (content : GoStr) (i j : Nat)
    (env : EngineEnv) (turn : Nat) (st : EngineState) (message am : Message)
    (hacc : idxOf content (tagOpen (gs "access_mcp_resource")) = some i)
    (haccC : idxOf content (tagClose (gs "access_mcp_resource")) = some j)
    (huse : containsSub content (tagOpen (gs "use_mcp_tool")) = false)
    (_horder : i + (tagOpen (gs "access_mcp_resource")).length ≤ j)
    (hturn : turn ≤ env.maxTurns)
    (hprov : env.provider (st.messages ++ [message]) = some am)
    (hcontent : am.content = GoContent.str content) :
    containsToolUse content = true ∧
    (splitContent content).2
      = some (trimStr ((content.drop i).take
          (j + (tagClose (gs "access_mcp_resource")).length - i))) ∧
    (∀ parse : GoStr → Option JObj,
      ExtractMCPToolUse parse
        (trimStr ((content.drop i).take
          (j + (tagClose (gs "access_mcp_resource")).length - i))) = none) ∧
    processUserMessage env turn st message
      = { st with
          messages := st.messages ++ [message]
          providerCalls := st.providerCalls + 1 } := by
  have hu_none : idxOf content (tagOpen (gs "use_mcp_tool")) = none := by
    cases hx : idxOf content (tagOpen (gs "use_mcp_tool")) with
    | none => rfl
    | some m =>
      rw [containsSub, hx] at huse
      simp at huse
  have hlt : i < content.length := by
    exact idxOf_lt_length '<' ((gs "access_mcp_resource") ++ ['>']) content i hacc
  have hctu : containsToolUse content = true := by
    simp only [containsToolUse, ToolTags, List.any_cons, List.any_nil,
      Bool.or_eq_true, Bool.and_eq_true]
    right
    left
    constructor
    · rw [containsSub, hacc]
      rfl
    · rw [containsSub, haccC]
      rfl
  have hscan : firstTagScan content = (i, some (gs "access_mcp_resource")) := by
    unfold firstTagScan ToolTags
    simp only [List.foldl_cons, List.foldl_nil]
    rw [hu_none, hacc]
    simp [hlt]
  have hsplit2 : (splitContent content).2
      = some (trimStr ((content.drop i).take
          (j + (tagClose (gs "access_mcp_resource")).length - i))) := by
    unfold splitContent
    rw [hscan]
    simp only [hlt, if_true, haccC]
  have hnouse : ∀ parse : GoStr → Option JObj,
      ExtractMCPToolUse parse
        (trimStr ((content.drop i).take
          (j + (tagClose (gs "access_mcp_resource")).length - i))) = none := by
    intro parse
    have hn : idxOf (trimStr ((content.drop i).take
          (j + (tagClose (gs "access_mcp_resource")).length - i)))
        (tagOpen (gs "use_mcp_tool")) = none := by
      cases hx : idxOf (trimStr ((content.drop i).take
          (j + (tagClose (gs "access_mcp_resource")).length - i)))
          (tagOpen (gs "use_mcp_tool")) with
      | none => rfl
      | some m =>
        have hsub : containsSub (trimStr ((content.drop i).take
            (j + (tagClose (gs "access_mcp_resource")).length - i)))
            (tagOpen (gs "use_mcp_tool")) = true := by
          rw [containsSub, hx]
          rfl
        have := containsSub_of_trim_take_drop content (tagOpen (gs "use_mcp_tool")) _ _ hsub
        rw [this] at huse
        exact absurd huse (by simp)
    unfold ExtractMCPToolUse betweenTags
    rw [hn]
  refine ⟨hctu, hsplit2, hnouse, ?_⟩
  rw [processUserMessage_turnGuard, if_neg (by omega)]
  simp only [processBody, hprov, hcontent, goToString, hctu, if_true]
  rw [hsplit2]
  simp only [hnouse env.parseJSON]

/-- Concrete instantiation of the access-block theorem: a pure
`access_mcp_resource` element, one completion request, nothing appended but
the user message, nothing persisted. -/
theorem c9_access_block_witness :
    (idxOf c9Content (tagOpen (gs "access_mcp_resource")) = some 0
      ∧ idxOf c9Content (tagClose (gs "access_mcp_resource")) = some 21
      ∧ containsSub c9Content (tagOpen (gs "use_mcp_tool")) = false
      ∧ 1 ≤ envA.maxTurns) ∧
    processUserMessage envA 1 ⟨[], [], 0⟩ (mkUserMsg (gs "hi") 0)
      = ⟨[mkUserMsg (gs "hi") 0], [], 1⟩ := by
  refine ⟨⟨by decide, by decide, by decide, by decide⟩, ?_⟩
  have h := c9_access_block_without_use_tool c9Content 0 21 envA 1 ⟨[], [], 0⟩
    (mkUserMsg (gs "hi") 0) amA (by decide) (by decide) (by decide) (by decide)
    (by decide) rfl rfl
  simpa using h.2.2.2

-- ---------------------------------------------------------------------------
-- Auxiliary occurrence lemmas for the tool-block round trip (C5)
-- ---------------------------------------------------------------------------

theorem idxOf_of_isPre (s pat : GoStr) (h : pat.isPrefixOf s = true) :
    idxOf s pat = some 0 := by
  rw [idxOf.eq_def, if_pos h]

theorem idxOf_append_noHead2 (pat xs rest : GoStr) (p : Char)
    (hp : pat.head? = some p) (hxs : ∀ c ∈ xs, ¬ c = p) :
    idxOf (xs ++ rest) pat = (idxOf rest pat).map (· + xs.length) := by
  cases pat with
  | nil => simp at hp
  | cons q qs =>
    have hq : q = p := by simpa using hp
    subst hq
    exact idxOf_append_noHead q qs xs hxs rest

theorem idxOf_noHead_none2 (pat xs : GoStr) (p : Char)
    (hp : pat.head? = some p) (hxs : ∀ c ∈ xs, ¬ c = p) :
    idxOf xs pat = none := by
  cases pat with
  | nil => simp at hp
  | cons q qs =>
    have hq : q = p := by simpa using hp
    subst hq
    exact idxOf_noHead_none q qs xs hxs

theorem argsFind_cons (c : Char) (t : GoStr) :
    argsFind (c :: t) =
      if argOpenTag.isPrefixOf (c :: t) then
        match argsAt ((c :: t).drop argOpenTag.length) with
        | some g => some g
        | none => argsFind t
      else argsFind t := rfl

theorem argsFind_skip_lit :
    ∀ (lit : GoStr), stepClash argOpenTag lit = true → ∀ (rest : GoStr),
      argsFind (lit ++ rest) = argsFind rest := by
  intro lit
  induction lit with
  | nil =>
    intro _ rest
    rfl
  | cons l ls ih =>
    intro h rest
    rw [show stepClash argOpenTag (l :: ls)
        = (clash argOpenTag (l :: ls) && stepClash argOpenTag ls) from rfl,
      Bool.and_eq_true] at h
    have hfalse : argOpenTag.isPrefixOf (l :: (ls ++ rest)) = false :=
      clash_not_isPre argOpenTag (l :: ls) h.1 rest
    rw [List.cons_append, argsFind_cons, hfalse]
    simp only [Bool.false_eq_true, if_false]
    exact ih h.2 rest

theorem argsFind_skip_noHead :
    ∀ (xs : GoStr), (∀ c ∈ xs, ¬ c = '<') → ∀ (rest : GoStr),
      argsFind (xs ++ rest) = argsFind rest := by
  intro xs
  induction xs with
  | nil =>
    intro _ rest
    rfl
  | cons c t ih =>
    intro hxs rest
    have hc : ¬ c = '<' := hxs c (by simp)
    have hfalse : argOpenTag.isPrefixOf (c :: (t ++ rest)) = false := by
      rw [show argOpenTag = '<' :: (gs "arguments>") from rfl, isPre_cons]
      have hb : ('<' == c) = false := by
        cases hpc : '<' == c
        · rfl
        · exact absurd (by simpa [eq_comm] using (beq_iff_eq.mp hpc)) hc
      rw [hb]
      rfl
    rw [List.cons_append, argsFind_cons, hfalse]
    simp only [Bool.false_eq_true, if_false]
    exact ih (fun d hd => hxs d (by simp [hd])) rest

theorem trimStr_eq_self_of (c d : Char) (hc : isWS c = false) (hd : isWS d = false)
    (mid : GoStr) : trimStr (c :: (mid ++ [d])) = c :: (mid ++ [d]) := by
  unfold trimStr
  rw [List.dropWhile_cons, hc]
  simp only [Bool.false_eq_true, if_false]
  rw [List.reverse_cons, List.reverse_append, List.reverse_singleton,
    List.singleton_append, List.cons_append, List.dropWhile_cons, hd]
  simp only [Bool.false_eq_true, if_false]
  rw [List.reverse_cons, List.reverse_append, List.reverse_reverse,
    List.reverse_singleton, List.singleton_append]
  rfl

theorem c5_idx_useOpen (pre S T post : GoStr) (hpre : ∀ c ∈ pre, ¬ c = '<') :
    idxOf (pre ++ (c5Block S T ++ post)) (tagOpen (gs "use_mcp_tool"))
      = some pre.length := by
  rw [idxOf_append_noHead2 (tagOpen (gs "use_mcp_tool")) pre (c5Block S T ++ post)
    '<' rfl hpre]
  have hp : (tagOpen (gs "use_mcp_tool")).isPrefixOf (c5Block S T ++ post) = true := by
    rw [c5Block, useOpenT, List.append_assoc]
    exact isPre_append _ _ (isPre_refl _) _
  rw [idxOf_of_isPre _ _ hp]
  simp

theorem c5_idx_accOpen_none (pre S T post : GoStr)
    (hpre : ∀ c ∈ pre, ¬ c = '<') (hS : ∀ c ∈ S, ¬ c = '<')
    (hT : ∀ c ∈ T, ¬ c = '<') (hpost : ∀ c ∈ post, ¬ c = '<') :
    idxOf (pre ++ (c5Block S T ++ post)) (tagOpen (gs "access_mcp_resource"))
      = none := by
  rw [idxOf_append_noHead2 (tagOpen (gs "access_mcp_resource")) pre
    (c5Block S T ++ post) '<' rfl hpre]
  simp only [c5Block, c5Inner, useOpenT, useCloseT, svOpenT, svCloseT, tlOpenT,
    tlCloseT, argSegT, List.append_assoc]
  rw [idxOf_append_lit (tagOpen (gs "access_mcp_resource"))
    (tagOpen (gs "use_mcp_tool")) (by decide) _]
  rw [idxOf_append_lit (tagOpen (gs "access_mcp_resource"))
    (gs "<server_name>") (by decide) _]
  rw [idxOf_append_noHead2 (tagOpen (gs "access_mcp_resource")) S _ '<' rfl hS]
  rw [idxOf_append_lit (tagOpen (gs "access_mcp_resource"))
    (gs "</server_name>") (by decide) _]
  rw [idxOf_append_lit (tagOpen (gs "access_mcp_resource"))
    (gs "<tool_name>") (by decide) _]
  rw [idxOf_append_noHead2 (tagOpen (gs "access_mcp_resource")) T _ '<' rfl hT]
  rw [idxOf_append_lit (tagOpen (gs "access_mcp_resource"))
    (gs "</tool_name>") (by decide) _]
  rw [idxOf_append_lit (tagOpen (gs "access_mcp_resource"))
    (gs "<arguments>\x7b\"a\":1\x7d</arguments>") (by decide) _]
  rw [idxOf_append_lit (tagOpen (gs "access_mcp_resource"))
    (tagClose (gs "use_mcp_tool")) (by decide) _]
  rw [idxOf_noHead_none2 (tagOpen (gs "access_mcp_resource")) post '<' rfl hpost]
  rfl

theorem c5_idx_useClose (pre S T post : GoStr)
    (hpre : ∀ c ∈ pre, ¬ c = '<') (hS : ∀ c ∈ S, ¬ c = '<')
    (hT : ∀ c ∈ T, ¬ c = '<') :
    idxOf (pre ++ (c5Block S T ++ post)) (tagClose (gs "use_mcp_tool"))
      = some (pre.length + S.length + T.length + 94) := by
  rw [idxOf_append_noHead2 (tagClose (gs "use_mcp_tool")) pre
    (c5Block S T ++ post) '<' rfl hpre]
  simp only [c5Block, c5Inner, useOpenT, useCloseT, svOpenT, svCloseT, tlOpenT,
    tlCloseT, argSegT, List.append_assoc]
  rw [idxOf_append_lit (tagClose (gs "use_mcp_tool"))
    (tagOpen (gs "use_mcp_tool")) (by decide) _]
  rw [idxOf_append_lit (tagClose (gs "use_mcp_tool"))
    (gs "<server_name>") (by decide) _]
  rw [idxOf_append_noHead2 (tagClose (gs "use_mcp_tool")) S _ '<' rfl hS]
  rw [idxOf_append_lit (tagClose (gs "use_mcp_tool"))
    (gs "</server_name>") (by decide) _]
  rw [idxOf_append_lit (tagClose (gs "use_mcp_tool"))
    (gs "<tool_name>") (by decide) _]
  rw [idxOf_append_noHead2 (tagClose (gs "use_mcp_tool")) T _ '<' rfl hT]
  rw [idxOf_append_lit (tagClose (gs "use_mcp_tool"))
    (gs "</tool_name>") (by decide) _]
  rw [idxOf_append_lit (tagClose (gs "use_mcp_tool"))
    (gs "<arguments>\x7b\"a\":1\x7d</arguments>") (by decide) _]
  rw [idxOf_of_isPre _ _ (isPre_append (tagClose (gs "use_mcp_tool")) _
    (isPre_refl _) post)]
  simp only [Option.map_some', Option.some.injEq]
  have e2 : (gs "<server_name>").length = 13 := by decide
  have e3 : (gs "</server_name>").length = 14 := by decide
  have e4 : (gs "<tool_name>").length = 11 := by decide
  have e5 : (gs "</tool_name>").length = 12 := by decide
  have e6 : (gs "<arguments>\x7b\"a\":1\x7d</arguments>").length = 30 := by decide
  have e1 : (tagOpen (gs "use_mcp_tool")).length = 14 := by decide
  omega

theorem c5_idx_useClose_inner (S T : GoStr)
    (hS : ∀ c ∈ S, ¬ c = '<') (hT : ∀ c ∈ T, ¬ c = '<') :
    idxOf (c5Inner S T ++ useCloseT) (tagClose (gs "use_mcp_tool"))
      = some (S.length + T.length + 80) := by
  simp only [c5Inner, useCloseT, svOpenT, svCloseT, tlOpenT, tlCloseT, argSegT,
    List.append_assoc]
  rw [idxOf_append_lit (tagClose (gs "use_mcp_tool"))
    (gs "<server_name>") (by decide) _]
  rw [idxOf_append_noHead2 (tagClose (gs "use_mcp_tool")) S _ '<' rfl hS]
  rw [idxOf_append_lit (tagClose (gs "use_mcp_tool"))
    (gs "</server_name>") (by decide) _]
  rw [idxOf_append_lit (tagClose (gs "use_mcp_tool"))
    (gs "<tool_name>") (by decide) _]
  rw [idxOf_append_noHead2 (tagClose (gs "use_mcp_tool")) T _ '<' rfl hT]
  rw [idxOf_append_lit (tagClose (gs "use_mcp_tool"))
    (gs "</tool_name>") (by decide) _]
  rw [idxOf_append_lit (tagClose (gs "use_mcp_tool"))
    (gs "<arguments>\x7b\"a\":1\x7d</arguments>") (by decide) _]
  rw [idxOf_of_isPre (tagClose (gs "use_mcp_tool")) _ (isPre_refl _)]
  simp only [Option.map_some', Option.some.injEq]
  have e2 : (gs "<server_name>").length = 13 := by decide
  have e3 : (gs "</server_name>").length = 14 := by decide
  have e4 : (gs "<tool_name>").length = 11 := by decide
  have e5 : (gs "</tool_name>").length = 12 := by decide
  have e6 : (gs "<arguments>\x7b\"a\":1\x7d</arguments>").length = 30 := by decide
  omega

theorem trimStr_eq_self2 (s : GoStr) (c d : Char) (hh : s.head? = some c)
    (hc : isWS c = false) (hl : s.getLast? = some d) (hd : isWS d = false) :
    trimStr s = s := by
  obtain ⟨t, rfl⟩ : ∃ t, s = c :: t := by
    cases s with
    | nil => simp at hh
    | cons x xs =>
      have hx : x = c := by simpa using hh
      exact ⟨xs, by rw [hx]⟩
  unfold trimStr
  rw [List.dropWhile_cons, hc]
  simp only [Bool.false_eq_true, if_false]
  have hrev : (c :: t).reverse.head? = some d := by
    rw [List.head?_reverse]
    exact hl
  obtain ⟨w, hw⟩ : ∃ w, (c :: t).reverse = d :: w := by
    cases hx : (c :: t).reverse with
    | nil => rw [hx] at hrev; simp at hrev
    | cons y ys =>
      rw [hx] at hrev
      have hy : y = d := by simpa using hrev
      exact ⟨ys, by rw [hy]⟩
  rw [hw, List.dropWhile_cons, hd]
  simp only [Bool.false_eq_true, if_false]
  rw [← hw, List.reverse_reverse]

theorem c5_trim_block (S T : GoStr) : trimStr (c5Block S T) = c5Block S T := by
  apply trimStr_eq_self2 (c5Block S T) '<' '>'
  · rfl
  · decide
  · rw [c5Block, List.getLast?_append, List.getLast?_append]
    have : useCloseT.getLast? = some '>' := by decide
    rw [this]
    rfl
  · decide

theorem c5_between_use (S T : GoStr)
    (hS : ∀ c ∈ S, ¬ c = '<') (hT : ∀ c ∈ T, ¬ c = '<') :
    betweenTags (c5Block S T) (tagOpen (gs "use_mcp_tool"))
      (tagClose (gs "use_mcp_tool")) = some (c5Inner S T) := by
  have h0 : idxOf (c5Block S T) (tagOpen (gs "use_mcp_tool")) = some 0 := by
    apply idxOf_of_isPre
    rw [c5Block, useOpenT]
    exact isPre_append _ _ (isPre_refl _) _
  have hdrop : (c5Block S T).drop (0 + (tagOpen (gs "use_mcp_tool")).length)
      = c5Inner S T ++ useCloseT := by
    rw [c5Block, useOpenT, Nat.zero_add]
    exact List.drop_left _ _
  have hclose := c5_idx_useClose_inner S T hS hT
  have htake : (c5Inner S T ++ useCloseT).take (S.length + T.length + 80)
      = c5Inner S T := by
    apply List.take_left'
    simp only [c5Inner, svOpenT, svCloseT, tlOpenT, tlCloseT, argSegT,
      List.length_append]
    have e2 : (gs "<server_name>").length = 13 := by decide
    have e3 : (gs "</server_name>").length = 14 := by decide
    have e4 : (gs "<tool_name>").length = 11 := by decide
    have e5 : (gs "</tool_name>").length = 12 := by decide
    have e6 : (gs "<arguments>\x7b\"a\":1\x7d</arguments>").length = 30 := by decide
    omega
  simp only [betweenTags, h0, hdrop, hclose, htake]

theorem c5_between_sv (S T : GoStr) (hS : ∀ c ∈ S, ¬ c = '<') :
    betweenTags (c5Inner S T) (gs "<server_name>") (gs "</server_name>")
      = some S := by
  have h0 : idxOf (c5Inner S T) (gs "<server_name>") = some 0 := by
    apply idxOf_of_isPre
    rw [c5Inner, svOpenT]
    exact isPre_append _ _ (isPre_refl _) _
  have hdrop : (c5Inner S T).drop (0 + (gs "<server_name>").length)
      = S ++ (svCloseT ++ (tlOpenT ++ (T ++ (tlCloseT ++ argSegT)))) := by
    rw [c5Inner, svOpenT, Nat.zero_add]
    exact List.drop_left _ _
  have hclose : idxOf (S ++ (svCloseT ++ (tlOpenT ++ (T ++ (tlCloseT ++ argSegT)))))
      (gs "</server_name>") = some S.length := by
    rw [idxOf_append_noHead2 (gs "</server_name>") S _ '<' rfl hS]
    have hz : idxOf (svCloseT ++ (tlOpenT ++ (T ++ (tlCloseT ++ argSegT))))
        (gs "</server_name>") = some 0 := by
      apply idxOf_of_isPre
      rw [svCloseT]
      exact isPre_append _ _ (isPre_refl _) _
    rw [hz]
    simp
  have htake : (S ++ (svCloseT ++ (tlOpenT ++ (T ++ (tlCloseT ++ argSegT))))).take
      S.length = S := List.take_left' rfl
  simp only [betweenTags, h0, hdrop, hclose, htake]

theorem c5_between_tl (S T : GoStr)
    (hS : ∀ c ∈ S, ¬ c = '<') (hT : ∀ c ∈ T, ¬ c = '<') :
    betweenTags (c5Inner S T) (gs "<tool_name>") (gs "</tool_name>")
      = some T := by
  have h0 : idxOf (c5Inner S T) (gs "<tool_name>") = some (S.length + 27) := by
    simp only [c5Inner, svOpenT, svCloseT, tlOpenT, tlCloseT, argSegT,
      List.append_assoc]
    rw [idxOf_append_lit (gs "<tool_name>") (gs "<server_name>") (by decide) _]
    rw [idxOf_append_noHead2 (gs "<tool_name>") S _ '<' rfl hS]
    rw [idxOf_append_lit (gs "<tool_name>") (gs "</server_name>") (by decide) _]
    rw [idxOf_of_isPre _ _ (isPre_append (gs "<tool_name>") _ (isPre_refl _) _)]
    simp only [Option.map_some', Option.some.injEq]
    have e2 : (gs "<server_name>").length = 13 := by decide
    have e3 : (gs "</server_name>").length = 14 := by decide
    omega
  have hdrop : (c5Inner S T).drop (S.length + 27 + (gs "<tool_name>").length)
      = T ++ (tlCloseT ++ argSegT) := by
    have hP : c5Inner S T
        = (svOpenT ++ (S ++ (svCloseT ++ tlOpenT))) ++ (T ++ (tlCloseT ++ argSegT)) := by
      simp [c5Inner, List.append_assoc]
    rw [hP]
    apply List.drop_left'
    simp only [List.length_append]
    have e2 : svOpenT.length = 13 := by decide
    have e3 : svCloseT.length = 14 := by decide
    have e4 : tlOpenT.length = 11 := by decide
    have e5 : (gs "<tool_name>").length = 11 := by decide
    omega
  have hclose : idxOf (T ++ (tlCloseT ++ argSegT)) (gs "</tool_name>")
      = some T.length := by
    rw [idxOf_append_noHead2 (gs "</tool_name>") T _ '<' rfl hT]
    have hz : idxOf (tlCloseT ++ argSegT) (gs "</tool_name>") = some 0 := by
      apply idxOf_of_isPre
      rw [tlCloseT]
      exact isPre_append _ _ (isPre_refl _) _
    rw [hz]
    simp
  have htake : (T ++ (tlCloseT ++ argSegT)).take T.length = T := List.take_left' rfl
  simp only [betweenTags, h0, hdrop, hclose, htake]

theorem c5_argsFind (S T : GoStr)
    (hS : ∀ c ∈ S, ¬ c = '<') (hT : ∀ c ∈ T, ¬ c = '<') :
    argsFind (c5Inner S T) = some c5Args := by
  simp only [c5Inner, svOpenT, svCloseT, tlOpenT, tlCloseT, List.append_assoc]
  rw [argsFind_skip_lit (gs "<server_name>") (by decide) _]
  rw [argsFind_skip_noHead S hS _]
  rw [argsFind_skip_lit (gs "</server_name>") (by decide) _]
  rw [argsFind_skip_lit (gs "<tool_name>") (by decide) _]
  rw [argsFind_skip_noHead T hT _]
  rw [argsFind_skip_lit (gs "</tool_name>") (by decide) _]
  decide

theorem c5_block_length (S T : GoStr) :
    (c5Block S T).length = 109 + S.length + T.length := by
  simp only [c5Block, c5Inner, useOpenT, useCloseT, svOpenT, svCloseT, tlOpenT,
    tlCloseT, argSegT, List.length_append]
  have e1 : (tagOpen (gs "use_mcp_tool")).length = 14 := by decide
  have e2 : (gs "<server_name>").length = 13 := by decide
  have e3 : (gs "</server_name>").length = 14 := by decide
  have e4 : (gs "<tool_name>").length = 11 := by decide
  have e5 : (gs "</tool_name>").length = 12 := by decide
  have e6 : (gs "<arguments>\x7b\"a\":1\x7d</arguments>").length = 30 := by decide
  have e7 : (tagClose (gs "use_mcp_tool")).length = 15 := by decide
  omega

theorem c5_split (pre S T post : GoStr)
    (hpre : ∀ c ∈ pre, ¬ c = '<') (hS : ∀ c ∈ S, ¬ c = '<')
    (hT : ∀ c ∈ T, ¬ c = '<') (hpost : ∀ c ∈ post, ¬ c = '<') :
    splitContent (pre ++ (c5Block S T ++ post))
      = (trimStr (pre ++ post), some (c5Block S T)) := by
  have h1 := c5_idx_useOpen pre S T post hpre
  have h2 := c5_idx_accOpen_none pre S T post hpre hS hT hpost
  have h3 := c5_idx_useClose pre S T post hpre hS hT
  have hblen := c5_block_length S T
  have h15 : (tagClose (gs "use_mcp_tool")).length = 15 := by decide
  have hplen : pre.length < (pre ++ (c5Block S T ++ post)).length := by
    simp only [List.length_append]
    omega
  have hscan : firstTagScan (pre ++ (c5Block S T ++ post))
      = (pre.length, some (gs "use_mcp_tool")) := by
    unfold firstTagScan ToolTags
    simp only [List.foldl_cons, List.foldl_nil, h1, h2]
    rw [if_pos hplen]
  have htake1 : (pre ++ (c5Block S T ++ post)).take pre.length = pre :=
    List.take_left' rfl
  have hdrop1 : (pre ++ (c5Block S T ++ post)).drop pre.length
      = c5Block S T ++ post := List.drop_left' rfl
  have hdrop2 : (pre ++ (c5Block S T ++ post)).drop
      (pre.length + S.length + T.length + 94 + (tagClose (gs "use_mcp_tool")).length)
      = post := by
    rw [show pre ++ (c5Block S T ++ post) = (pre ++ c5Block S T) ++ post from by
      simp [List.append_assoc]]
    apply List.drop_left'
    simp only [List.length_append]
    omega
  have htake2 : (c5Block S T ++ post).take
      (pre.length + S.length + T.length + 94 + (tagClose (gs "use_mcp_tool")).length
        - pre.length) = c5Block S T := by
    apply List.take_left'
    omega
  unfold splitContent
  rw [hscan]
  simp only [if_pos hplen, h3, htake1, hdrop1, hdrop2, htake2, c5_trim_block]

theorem c5_extract (S T : GoStr) (parseJSON : GoStr → Option JObj)
    (hS : ∀ c ∈ S, ¬ c = '<') (hT : ∀ c ∈ T, ¬ c = '<')
    (hStrim : trimStr S = S) (hTtrim : trimStr T = T)
    (hparse : parseJSON c5Args = some c5ArgsObj) :
    ExtractMCPToolUse parseJSON (c5Block S T) = some ⟨S, T, c5ArgsObj⟩ := by
  simp only [ExtractMCPToolUse, c5_between_use S T hS hT, c5_between_sv S T hS,
    c5_between_tl S T hS hT, c5_argsFind S T hS hT, hparse, hStrim, hTtrim]

/-- C5: for any prose `pre`/`post` and any server name `S` and tool name `T`
free of markup (no angle bracket, no surrounding whitespace), the parsing
pipeline applied to `pre ++ block ++ post` — where `block` is the claim's
`use_mcp_tool` element with `S`, `T` and arguments `\x7b"a":1\x7d` — first
splits the content into the trimmed surrounding prose `trim (pre ++ post)`
and the tool block, and then `ExtractMCPToolUse` parses the block into
exactly the invocation `⟨S, T, \x7ba: 1\x7d⟩` (with `parseJSON` standing
for the JSON library on the argument text). -/
theorem c5_tool_block_round_trip (pre post S T : GoStr)
    (parseJSON : GoStr → Option JObj)
    (hpre : ∀ c ∈ pre, ¬ c = '<') (hpost : ∀ c ∈ post, ¬ c = '<')
    (hS : ∀ c ∈ S, ¬ c = '<') (hT : ∀ c ∈ T, ¬ c = '<')
    (hStrim : trimStr S = S) (hTtrim : trimStr T = T)
    (hparse : parseJSON c5Args = some c5ArgsObj) :
    splitContent (pre ++ (c5Block S T ++ post))
      = (trimStr (pre ++ post), some (c5Block S T)) ∧
    ExtractMCPToolUse parseJSON (c5Block S T) = some ⟨S, T, c5ArgsObj⟩ :=
  ⟨c5_split pre S T post hpre hS hT hpost,
   c5_extract S T parseJSON hS hT hStrim hTtrim hparse⟩

set_option maxRecDepth 16384 in
/-- Concrete instantiation of the tool-block round trip, on the prose
"Hello " and " world" around the literal block with server "S" and tool
"T". -/
theorem c5_tool_block_round_trip_witness :
    ((∀ c ∈ gs "Hello ", ¬ c = '<') ∧ (∀ c ∈ gs " world", ¬ c = '<')
      ∧ trimStr (gs "S") = gs "S" ∧ parseW c5Args = some c5ArgsObj) ∧
    (splitContent (gs "Hello " ++ (c5Block (gs "S") (gs "T") ++ gs " world"))
        = (trimStr (gs "Hello " ++ gs " world"), some (c5Block (gs "S") (gs "T"))) ∧
      ExtractMCPToolUse parseW (c5Block (gs "S") (gs "T"))
        = some ⟨gs "S", gs "T", c5ArgsObj⟩) := by
  refine ⟨⟨by decide, by decide, by decide, by decide⟩, ?_⟩
  exact c5_tool_block_round_trip (gs "Hello ") (gs " world") (gs "S") (gs "T") parseW
    (by decide) (by decide) (by decide) (by decide) (by decide) (by decide) (by decide)
